import Mathlib

/-!
Verification of `check-cert-net` (kazeburo/check-cert-net).

A shallow embedding, in Lean 4, of the core of the `check-cert-net`
monitoring probe: the probe-command builder, the subprocess pipeline
runner (`execpipe.Command`), the two certificate-output parsers (the
basic `openssl x509 -noout -dates` mode and the extended
`openssl x509 -noout -text` mode), and the expiry/server-name
evaluator (`checkCertNet`).

Modelling conventions:

* Go strings are `String`; the string algorithms used by the program
  (`strings.Index`, `strings.Split`, `strings.TrimSpace`,
  `strings.TrimRight`, `strings.Join`, `strings.NewReplacer`) are
  re-implemented structurally over `List Char` so that every
  definition evaluates inside the kernel.
* `time.Time` instants are modelled by `GoTime` (calendar fields) and,
  where the program subtracts instants, by an epoch-second `Int`
  (`toEpochSec`).  Go's `time.Parse` with the fixed layout
  `"Jan 2 15:04:05 2006 MST"` is modelled by `parseCertTime`,
  following Go's parser for exactly this layout: a run of spaces in
  the layout matches a run of one or more spaces in the value, `2`
  and `15` read one or two digits, `04`/`05` read exactly two digits,
  `2006` reads exactly four digits, and the three-letter zone
  abbreviation contributes a zero UTC offset (as it does for `GMT`
  and `UTC`, and for any abbreviation that is not the local zone).
  Field ranges (hour, minute, second, day-of-month including leap
  years) are validated as Go does.
* `daysRemain := int64(notAfter.Sub(now).Hours() / 24)` divides and
  truncates toward zero; its exact-arithmetic reading over seconds is
  `Int.tdiv (notAfter - now) 86400`, which is how it is embedded.
* Subprocess stages are abstracted by their observable behaviour
  (`StageBehavior`): whether `Start` fails, whether `Wait` fails, and
  what the stage writes to the shared standard-error sink.  The
  concurrent, mutex-serialised writes of the stages to the shared
  sink are modelled as the in-declaration-order concatenation of each
  stage's output.
* The worker goroutine of `getCertInfo` communicates over the
  buffered channels `ch`/`errCh`, and the caller consumes whichever
  communication arrives first; since every `errCh` send in the scan
  happens before the final `ch` send, the embedding returns the first
  error emitted by the scan when there is one.
-/

/-! ## Character-list string primitives (Go `strings` package) -/

/-- Drop Unicode white space from both ends of a character list; the
model of Go `strings.TrimSpace` (ASCII white space agrees between Go
and `Char.isWhitespace` on the inputs this program sees). -/
def trimChars (cs : List Char) : List Char :=
  ((cs.dropWhile Char.isWhitespace).reverse.dropWhile Char.isWhitespace).reverse

/-- Go `strings.TrimSpace` on a `String`. -/
def goTrim (s : String) : String := ⟨trimChars s.data⟩

/-- Split a character list at every occurrence of the separator
character; the model of Go `strings.Split` for a one-character
separator (`strings.Split("", sep) = [""]`, as here). -/
def splitOnChar (sep : Char) : List Char → List (List Char)
  | [] => [[]]
  | c :: cs =>
    let r := splitOnChar sep cs
    if c = sep then [] :: r
    else
      match r with
      | [] => [[c]]
      | h :: t => (c :: h) :: t

/-- Join character-list pieces with a separator character; the model
of Go `strings.Join` after re-splitting. -/
def joinWithChar (sep : Char) : List (List Char) → List Char
  | [] => []
  | [p] => p
  | p :: rest => p ++ sep :: joinWithChar sep rest

/-- Go `strings.Join(xs, ",")`. -/
def joinComma : List String → String
  | [] => ""
  | [s] => s
  | s :: rest => s ++ "," ++ joinComma rest

/-- Byte index of the first occurrence of `sub` in `cs`, if any; the
model of Go `strings.Index` (on the ASCII data this program scans,
character index and byte index coincide). -/
def strIndex (sub : List Char) : List Char → Option Nat
  | [] => if sub.isPrefixOf [] then some 0 else none
  | c :: cs' =>
    if sub.isPrefixOf (c :: cs') then some 0
    else (strIndex sub cs').map (· + 1)

/-- `strings.Index(l, sub) > 0`: `sub` occurs in `cs`, but not at the
start. -/
def containsAfterStart (sub cs : List Char) : Bool :=
  match strIndex sub cs with
  | some k => decide (0 < k)
  | none => false

/-! ## The Go time model -/

/-- The calendar fields produced by Go's `time.Parse` with layout
`"Jan 2 15:04:05 2006 MST"`.  For this program every parsed zone
abbreviation denotes UTC offset `0` (see the header comment), so the
fields together denote one absolute instant. -/
structure GoTime where
  year : Nat
  month : Nat
  day : Nat
  hour : Nat
  minute : Nat
  second : Nat
deriving DecidableEq, Repr

/-- The zero `time.Time` (`January 1, year 1, 00:00:00 UTC`), the
value Go leaves in `na` when `time.Parse` fails. -/
def zeroGoTime : GoTime := ⟨1, 1, 1, 0, 0, 0⟩

/-- Leap-year rule used by Go's date validation. -/
def isLeapYear (y : Nat) : Bool :=
  y % 4 == 0 && (y % 100 != 0 || y % 400 == 0)

/-- Days in a month, as Go's `daysIn`. -/
def daysInMonth (y m : Nat) : Nat :=
  if m = 1 then 31
  else if m = 2 then (if isLeapYear y then 29 else 28)
  else if m = 3 then 31
  else if m = 4 then 30
  else if m = 5 then 31
  else if m = 6 then 30
  else if m = 7 then 31
  else if m = 8 then 31
  else if m = 9 then 30
  else if m = 10 then 31
  else if m = 11 then 30
  else if m = 12 then 31
  else 0

/-- Days from `0001-01-01` to January 1 of year `y` (proleptic
Gregorian). -/
def daysBeforeYear (y : Nat) : Nat :=
  let n := y - 1
  n * 365 + n / 4 - n / 100 + n / 400

/-- Days from January 1 to the first of month `m` in year `y`. -/
def daysBeforeMonth (y m : Nat) : Nat :=
  (List.range (m - 1)).foldl (fun acc i => acc + daysInMonth y (i + 1)) 0

/-- Seconds since the Unix epoch of a `GoTime` (UTC offset `0`);
`719162` is the number of days from `0001-01-01` to `1970-01-01`. -/
def toEpochSec (t : GoTime) : Int :=
  ((daysBeforeYear t.year + daysBeforeMonth t.year t.month + (t.day - 1) : Nat) : Int) * 86400
    - 719162 * 86400
    + (t.hour : Int) * 3600 + (t.minute : Int) * 60 + (t.second : Int)

/-! ## `time.Parse` with layout `"Jan 2 15:04:05 2006 MST"` -/

/-- Numeric value of a decimal digit character. -/
def digitVal (c : Char) : Nat := c.toNat - 48

/-- Go `getnum(value, false)`: read one or two decimal digits. -/
def getnum1or2 : List Char → Option (Nat × List Char)
  | [] => none
  | c1 :: rest =>
    if c1.isDigit then
      match rest with
      | c2 :: rest2 =>
        if c2.isDigit then some (digitVal c1 * 10 + digitVal c2, rest2)
        else some (digitVal c1, rest)
      | [] => some (digitVal c1, [])
    else none

/-- Go `getnum(value, true)`: read exactly two decimal digits. -/
def getnum2 : List Char → Option (Nat × List Char)
  | c1 :: c2 :: rest =>
    if c1.isDigit && c2.isDigit then
      some (digitVal c1 * 10 + digitVal c2, rest)
    else none
  | _ => none

/-- Read exactly four decimal digits (the `2006` layout element). -/
def getnum4 : List Char → Option (Nat × List Char)
  | c1 :: c2 :: c3 :: c4 :: rest =>
    if c1.isDigit && c2.isDigit && c3.isDigit && c4.isDigit then
      some (digitVal c1 * 1000 + digitVal c2 * 100 + digitVal c3 * 10 + digitVal c4, rest)
    else none
  | _ => none

/-- Go's `skip` on a one-space layout chunk: the value must start
with a space, and the whole run of spaces is consumed. -/
def skipSpaces1 : List Char → Option (List Char)
  | ' ' :: rest => some (rest.dropWhile (· = ' '))
  | _ => none

/-- Consume one expected literal character. -/
def expectChar (e : Char) : List Char → Option (List Char)
  | c :: rest => if c = e then some rest else none
  | [] => none

/-- The three-letter month abbreviations of the `Jan` layout
element. -/
def monthOfAbbrev (cs : List Char) : Option Nat :=
  if cs = "Jan".data then some 1
  else if cs = "Feb".data then some 2
  else if cs = "Mar".data then some 3
  else if cs = "Apr".data then some 4
  else if cs = "May".data then some 5
  else if cs = "Jun".data then some 6
  else if cs = "Jul".data then some 7
  else if cs = "Aug".data then some 8
  else if cs = "Sep".data then some 9
  else if cs = "Oct".data then some 10
  else if cs = "Nov".data then some 11
  else if cs = "Dec".data then some 12
  else none

/-- Read the three-letter month abbreviation. -/
def parseMonth : List Char → Option (Nat × List Char)
  | c1 :: c2 :: c3 :: rest =>
    (monthOfAbbrev [c1, c2, c3]).map (fun m => (m, rest))
  | _ => none

/-- Read a three-letter upper-case zone abbreviation (the `MST`
layout element as produced by `openssl`, e.g. `GMT`). -/
def parseZone3 : List Char → Option (List Char)
  | c1 :: c2 :: c3 :: rest =>
    if c1.isUpper && c2.isUpper && c3.isUpper then some rest else none
  | _ => none

/-- Go `time.Parse("Jan 2 15:04:05 2006 MST", value)`, restricted as
described in the header comment.  `none` models a parse error. -/
def parseCertTime (cs : List Char) : Option GoTime := do
  let (mon, r1) ← parseMonth cs
  let r2 ← skipSpaces1 r1
  let (day, r3) ← getnum1or2 r2
  let r4 ← skipSpaces1 r3
  let (hour, r5) ← getnum1or2 r4
  let r6 ← expectChar ':' r5
  let (minute, r7) ← getnum2 r6
  let r8 ← expectChar ':' r7
  let (second, r9) ← getnum2 r8
  let r10 ← skipSpaces1 r9
  let (year, r11) ← getnum4 r10
  let r12 ← skipSpaces1 r11
  let r13 ← parseZone3 r12
  if r13 = [] && hour ≤ 23 && minute ≤ 59 && second ≤ 59
      && 1 ≤ day && day ≤ daysInMonth year mon then
    some ⟨year, mon, day, hour, minute, second⟩
  else
    none

example : parseCertTime "Jun 1 00:00:00 2030 GMT".data = some ⟨2030, 6, 1, 0, 0, 0⟩ := by decide
example : parseCertTime "Jun  1 00:00:00 2030 GMT".data = some ⟨2030, 6, 1, 0, 0, 0⟩ := by decide
example : parseCertTime "Dec 25 01:02:03 2031 GMT".data = some ⟨2031, 12, 25, 1, 2, 3⟩ := by decide
example : parseCertTime "Feb 30 00:00:00 2030 GMT".data = none := by decide
example : parseCertTime "nonsense".data = none := by decide

/-! ## Basic mode: `Buffer.String` and `Buffer.GetNotAfter`

`Buffer.String` trims trailing `'\n'` characters and then rewrites
`"\r\n"`, `"\r"` and `"\n"` to the two-character escape sequences
`\r\n`, `\r`, `\n` (Go `strings.NewReplacer`, first matching pattern
wins, left to right).  `Buffer.GetNotAfter` then requires the regular
expression `notAfter=(.+)$` to have exactly one match in the escaped
text and parses the capture with the fixed layout. -/

/-- Go `strings.TrimRight(s, "\n")`: remove trailing newline
characters. -/
def trimRightNewlines (cs : List Char) : List Char :=
  (cs.reverse.dropWhile (· = '\n')).reverse

/-- The `strings.NewReplacer("\r\n", "\\r\\n", "\r", "\\r", "\n",
"\\n")` rewrite: at each position the first matching pattern is
replaced, otherwise the character is copied. -/
def escapeNewlines : List Char → List Char
  | [] => []
  | '\r' :: '\n' :: rest => '\\' :: 'r' :: '\\' :: 'n' :: escapeNewlines rest
  | '\r' :: rest => '\\' :: 'r' :: escapeNewlines rest
  | '\n' :: rest => '\\' :: 'n' :: escapeNewlines rest
  | c :: rest => c :: escapeNewlines rest

/-- `Buffer.String()`: the raw buffer content after trailing-newline
trimming and newline escaping. -/
def bufString (s : String) : String :=
  ⟨escapeNewlines (trimRightNewlines s.data)⟩

/-- All matches of the Go regular expression `notAfter=(.+)$`
(`FindAllStringSubmatch`), on text without newline characters (which
is what `bufString` produces): a match is the leftmost occurrence of
`notAfter=` followed by at least one character, its capture group is
greedy and runs to the end of the text, and the non-overlapping scan
resumes past the match end — hence past the end of the text, so there
is never a second match. -/
def notAfterMatches : List Char → List (List Char)
  | [] => []
  | c :: cs =>
    if ("notAfter=".data).isPrefixOf (c :: cs) && decide (9 < (c :: cs).length) then
      [(c :: cs).drop 9]
    else notAfterMatches cs

/-- The failure modes of `Buffer.GetNotAfter`. -/
inductive BasicParseError where
  /-- `"Output not >contain notAfter=: %s"`, carrying the full
  escaped text. -/
  | noMatch (fullText : String)
  /-- A `time.Parse` failure, carrying the captured value. -/
  | badTime (value : String)
deriving DecidableEq, Repr

/-- `Buffer.GetNotAfter`: escape the raw text, require exactly one
regular-expression match, and parse the capture with the fixed
layout. -/
def getNotAfterOfBuffer (raw : String) : Except BasicParseError GoTime :=
  let s := bufString raw
  match notAfterMatches s.data with
  | [cap] =>
    match parseCertTime cap with
    | some t => .ok t
    | none => .error (.badTime ⟨cap⟩)
  | _ => .error (.noMatch s)

example :
    getNotAfterOfBuffer "notBefore=May 1 00:00:00 2020 GMT\nnotAfter=Jun 1 00:00:00 2030 GMT\n"
      = .ok ⟨2030, 6, 1, 0, 0, 0⟩ := rfl
example :
    getNotAfterOfBuffer "garbage" = .error (.noMatch "garbage") := rfl

/-! ## Extended mode: the scan loop of `getCertInfo`

The worker scans the `openssl x509 -noout -text` output line by line.
Each line is trimmed; then

* a line starting with `Subject: CN=` appends the remainder to the
  subject list;
* a line starting with `Not After : ` parses the remainder with the
  fixed layout — on failure the error (carrying the offending line) is
  sent on `errCh` and the zero time is stored, on success the parsed
  time overwrites any previous value;
* when the *previous* trimmed line contains
  `Subject Alternative Name:` at an index strictly greater than `0`
  (`strings.Index(prev, ...) > 0`), a line starting with `DNS:` is
  split on commas; every token is trimmed, tokens carrying the `DNS:`
  prefix are stripped of it and appended to the subject list unless
  already present in the seen-set `ms`.
-/

/-- The mutable state of the scan loop of `getCertInfo`. -/
structure ScanState where
  /-- `subjects` of the eventual `certInfo`. -/
  subjects : List String
  /-- The seen-set `ms` guarding SAN names. -/
  seen : List String
  /-- The `notAfter` pointer (`nil` until a `Not After : ` line is
  seen). -/
  notAfter : Option GoTime
  /-- The first error sent on `errCh` during the scan, carrying the
  offending trimmed line. -/
  err : Option String
deriving DecidableEq, Repr

/-- The initial scan state. -/
def initScanState : ScanState := ⟨[], [], none, none⟩

/-- The `Subject: CN=` branch of the loop body. -/
def cnStep (st : ScanState) (l : String) : ScanState :=
  if ("Subject: CN=".data).isPrefixOf l.data then
    { st with subjects := st.subjects ++ [⟨l.data.drop 12⟩] }
  else st

/-- The `Not After : ` branch of the loop body. -/
def naStep (st : ScanState) (l : String) : ScanState :=
  if ("Not After : ".data).isPrefixOf l.data then
    match parseCertTime (l.data.drop 12) with
    | some na => { st with notAfter := some na }
    | none =>
      { st with notAfter := some zeroGoTime,
                err := match st.err with
                       | some e => some e
                       | none => some l }
  else st

/-- The body of the inner loop over the comma-separated tokens of a
`DNS:` line: trim the token, and if it carries the `DNS:` prefix,
strip the prefix and append the name unless it is in the seen-set. -/
def dnsStep (st : ScanState) (d : List Char) : ScanState :=
  let d2 := trimChars d
  if ("DNS:".data).isPrefixOf d2 then
    let d3 : String := ⟨d2.drop 4⟩
    if st.seen.contains d3 then st
    else { st with subjects := st.subjects ++ [d3], seen := st.seen ++ [d3] }
  else st

/-- The inner loop over the comma-separated tokens of a `DNS:`
line. -/
def addDNS (st : ScanState) (toks : List (List Char)) : ScanState :=
  toks.foldl dnsStep st

/-- The `Subject Alternative Name:` / `DNS:` branch of the loop
body; note the `strings.Index(prev, ...) > 0` test. -/
def sanStep (st : ScanState) (prev l : String) : ScanState :=
  if containsAfterStart ("Subject Alternative Name:".data) prev.data
      && ("DNS:".data).isPrefixOf l.data then
    addDNS st (splitOnChar ',' l.data)
  else st

/-- One iteration of the scan loop on the already-trimmed line `l`,
with `prev` the previous trimmed line. -/
def processLine (st : ScanState) (prev l : String) : ScanState :=
  sanStep (naStep (cnStep st l) l) prev l

/-- The scan loop: `prev` starts as `""` and carries the previous
trimmed line. -/
def scanLinesAux : List String → String → ScanState → ScanState
  | [], _, st => st
  | line :: rest, prev, st =>
    let l := goTrim line
    scanLinesAux rest l (processLine st prev l)

/-- Scan the output of `openssl x509 -noout -text`, given as its list
of lines. -/
def scanCertLines (lines : List String) : ScanState :=
  scanLinesAux lines "" initScanState

/-- The parse-level failures of `getCertInfo`. -/
inductive CertParseError where
  /-- A malformed `Not After : ` line, carrying the offending trimmed
  line (Go: `fmt.Errorf("%s:%s", err, l)` sent on `errCh`). -/
  | badNotAfter (line : String)
  /-- `"could not find notAfter in result"`. -/
  | missingNotAfter
deriving DecidableEq, Repr

/-- The structured certificate facts (`certInfo`). -/
structure CertInfo where
  notAfter : GoTime
  subjects : List String
deriving DecidableEq, Repr

/-- The parsing part of `getCertInfo`: scan the lines, and return the
first error communicated on `errCh` if there was one (the caller's
`select` consumes the first channel communication; every `errCh` send
happens before the final `ch` send), otherwise the `certInfo` — unless
no `Not After : ` line was ever seen, which is the
`could not find notAfter in result` failure. -/
def getCertInfoParse (lines : List String) : Except CertParseError CertInfo :=
  let st := scanCertLines lines
  match st.err with
  | some l => .error (.badNotAfter l)
  | none =>
    match st.notAfter with
    | some na => .ok ⟨na, st.subjects⟩
    | none => .error .missingNotAfter

example :
    getCertInfoParse
      ["        Subject: CN=example.com",
       "            Not After : Jun  1 00:00:00 2030 GMT",
       "            X509v3 Subject Alternative Name:",
       "                DNS:example.com, DNS:www.example.com, DNS:example.com"]
      = .ok ⟨⟨2030, 6, 1, 0, 0, 0⟩, ["example.com", "example.com", "www.example.com"]⟩ := rfl

example : getCertInfoParse ["no dates here"] = .error .missingNotAfter := rfl

/-! ## The expiry/server-name evaluator (`checkCertNet`) -/

/-- The three-level verdict of a `checkers.Checker`. -/
inductive Status where
  | OK
  | WARNING
  | CRITICAL
deriving DecidableEq, Repr

/-- The configuration struct `cmdOpts` (the flag layer guarantees the
defaults; only the fields read by the core are modelled). -/
structure CmdOpts where
  host : String
  port : String
  serverName : String
  verifyServerName : Bool
  rsa : Bool
  ecdsa : Bool
  crit : Int
  warn : Int
deriving DecidableEq, Repr

/-- The body of the verification loop of `checkCertNet`: a subject
starting with `*.` matches when the server name with its first
dot-label dropped equals the subject with its first dot-label dropped
(`strings.Join(strings.Split(d, ".")[1:], ".")`); any other subject
matches only on exact equality. -/
def matchSubject (d serverName : String) : Bool :=
  if ("*.".data).isPrefixOf d.data then
    joinWithChar '.' ((splitOnChar '.' d.data).drop 1)
      = joinWithChar '.' ((splitOnChar '.' serverName.data).drop 1)
  else d = serverName

/-- The `verifiedHostname` loop (a `for` with `break`, i.e. an
existence check over the subject list). -/
def verifiedHostname (subjects : List String) (serverName : String) : Bool :=
  subjects.any (fun d => matchSubject d serverName)

/-- Zero-pad a number to two digits (the `01`/`02` elements of the Go
format `2006-01-02`). -/
def pad2 (n : Nat) : String :=
  if n < 10 then "0" ++ toString n else toString n

/-- Zero-pad a number to four digits (the `2006` element). -/
def pad4 (n : Nat) : String :=
  if n < 10 then "000" ++ toString n
  else if n < 100 then "00" ++ toString n
  else if n < 1000 then "0" ++ toString n
  else toString n

/-- Go `notAfter.Format("2006-01-02")`. -/
def formatDate (t : GoTime) : String :=
  pad4 t.year ++ "-" ++ pad2 t.month ++ "-" ++ pad2 t.day

/-- `daysRemain`: the exact-arithmetic reading of
`int64(notAfter.Sub(now).Hours() / 24)` over epoch seconds —
truncation toward zero of the remaining seconds divided by `86400`. -/
def daysRemainOf (notAfterEpoch now : Int) : Int :=
  Int.tdiv (notAfterEpoch - now) 86400

/-- The expiry message
`"Expiration date: %s, %d days remaining"`. -/
def expiryMsg (t : GoTime) (daysRemain : Int) : String :=
  "Expiration date: " ++ formatDate t ++ ", " ++ toString daysRemain ++ " days remaining"

/-- `checkCertNet` after a successful `getCertInfo`, with `now` the
current UTC time in epoch seconds: optional server-name verification
(CRITICAL on failure), then the threshold comparison of
`daysRemain`. -/
def checkCertNetEval (opts : CmdOpts) (cert : CertInfo) (now : Int) : Status × String :=
  if opts.verifyServerName && !verifiedHostname cert.subjects opts.serverName then
    (.CRITICAL,
     "servername:" ++ opts.serverName ++ " is not included in " ++ joinComma cert.subjects)
  else
    let daysRemain := daysRemainOf (toEpochSec cert.notAfter) now
    let msg := expiryMsg cert.notAfter daysRemain
    if daysRemain < opts.crit then (.CRITICAL, msg)
    else if daysRemain < opts.warn then (.WARNING, msg)
    else (.OK, msg)

/-! ## The probe builder and the full check -/

/-- The `openssl s_client` invocation built by `getCertInfo` before
the cipher flags are examined. -/
def buildSClientBase (opts : CmdOpts) : List String :=
  let cmd := ["openssl", "s_client"]
  let cmd := if opts.serverName ≠ "" then cmd ++ ["-servername", opts.serverName] else cmd
  cmd ++ ["-connect", opts.host ++ ":" ++ opts.port]

/-- The command-building prefix of `getCertInfo`: the three-stage
command specification, or the configuration error rejected before any
stage is started. -/
def buildProbeCmds (opts : CmdOpts) : Except String (List (List String)) :=
  let base := buildSClientBase opts
  if opts.rsa && opts.ecdsa then
    .error "cannot use --rsa and --ecdsa at the same time"
  else
    let c := if opts.rsa then base ++ ["-cipher", "aRSA"] else base
    let c := if opts.ecdsa then c ++ ["-cipher", "aECDSA"] else c
    .ok [["echo", "QUIT"], c, ["openssl", "x509", "-noout", "-text"]]

/-- `checkCertNet`, with the pipeline-and-parse step behind
`buildProbeCmds` abstracted by the oracle `runCert` (it is only ever
invoked on the built command specification): any `getCertInfo` error
becomes CRITICAL with the error text, otherwise the evaluator runs. -/
def checkCertNetFull (opts : CmdOpts)
    (runCert : List (List String) → Except String CertInfo) (now : Int) : Status × String :=
  match buildProbeCmds opts with
  | .error e => (.CRITICAL, e)
  | .ok cmds =>
    match runCert cmds with
    | .error e => (.CRITICAL, e)
    | .ok cert => checkCertNetEval opts cert now

/-! ## The pipeline runner (`execpipe.Command`) -/

/-- The observable behaviour of one pipeline stage (one `exec.Cmd`):
whether `Start` fails, whether `Wait` reports a failure (non-zero
exit or I/O error), and the bytes the stage writes to the shared
standard-error sink while it runs. -/
structure StageBehavior where
  startErr : Option String
  waitErr : Option String
  stderrOut : String
deriving DecidableEq, Repr

/-- The start phase of `execpipe.Command`: start the stages in
declaration order and abort at the first `Start` failure, returning
that failure and the stages already started. -/
def startPhase : List StageBehavior → Option (String × List StageBehavior)
  | [] => none
  | b :: rest =>
    match b.startErr with
    | some e => some (e, [])
    | none => (startPhase rest).map (fun p => (p.1, b :: p.2))

/-- The wait phase: wait for the stages in declaration order and
abort at the first `Wait` failure. -/
def firstWaitErr : List StageBehavior → Option String
  | [] => none
  | b :: rest =>
    match b.waitErr with
    | some e => some e
    | none => firstWaitErr rest

/-- `execpipe.Command`: all stages' standard error goes to the shared
mutex-serialised sink (modelled as in-order concatenation), the
stages are started in order (first `Start` failure aborts, with only
the already-started stages having written to the sink), then waited
on in order (first `Wait` failure aborts).  Returns the error, if
any, and the accumulated error-sink text. -/
def execpipeCommand (stages : List StageBehavior) : Except String Unit × String :=
  match startPhase stages with
  | some (e, started) => (.error e, String.join (started.map (·.stderrOut)))
  | none =>
    let sink := String.join (stages.map (·.stderrOut))
    match firstWaitErr stages with
    | some e => (.error e, sink)
    | none => (.ok (), sink)

example :
    execpipeCommand
      [⟨none, none, ""⟩, ⟨none, some "exit status 1", ""⟩]
      = (.error "exit status 1", "") := rfl

/-! ## Derived observation functions

These functions restate, directly by recursion over the input lines
or tokens, what the scan loop computes; the lemmas below connect them
to the loop so that the claims can be phrased against them. -/

/-- A trimmed line recognised by the `Not After : ` branch. -/
def isNALine (l : String) : Bool :=
  ("Not After : ".data).isPrefixOf l.data

/-- A trimmed `Not After : ` line whose remainder does not parse. -/
def badNA (l : String) : Bool :=
  isNALine l && (parseCertTime (l.data.drop 12)).isNone

/-- The first trimmed line of the input that is a malformed
`Not After : ` line. -/
def firstBadNA : List String → Option String
  | [] => none
  | line :: rest =>
    if badNA (goTrim line) then some (goTrim line) else firstBadNA rest

/-- The last trimmed line of the input that is a `Not After : `
line. -/
def lastNALine : List String → Option String
  | [] => none
  | line :: rest =>
    match lastNALine rest with
    | some v => some v
    | none => if isNALine (goTrim line) then some (goTrim line) else none

/-- The `notAfter` value left by the scan loop: the parse of the last
`Not After : ` line (the zero time if that parse failed). -/
def lastNAValue : List String → Option GoTime
  | [] => none
  | line :: rest =>
    match lastNAValue rest with
    | some v => some v
    | none =>
      if isNALine (goTrim line) then
        some ((parseCertTime ((goTrim line).data.drop 12)).getD zeroGoTime)
      else none

/-- The names extracted from the comma-separated tokens of a `DNS:`
line: each token trimmed and, when it carries the `DNS:` prefix,
stripped of it. -/
def dnsTokNames (toks : List (List Char)) : List String :=
  toks.filterMap (fun d =>
    if ("DNS:".data).isPrefixOf (trimChars d) then
      some ⟨(trimChars d).drop 4⟩
    else none)

/-- The names a `DNS:` line contributes, before deduplication. -/
def dnsNames (l : String) : List String :=
  dnsTokNames (splitOnChar ',' l.data)

/-- Deduplicate a name list against a seen-set, keeping first
occurrences in order (the effect of the `ms` seen-set). -/
def dedupAgainst (seen : List String) : List String → List String
  | [] => []
  | n :: rest =>
    if seen.contains n then dedupAgainst seen rest
    else n :: dedupAgainst (seen ++ [n]) rest

/-! ## Supporting lemmas about the scan loop -/

/-- Keep the first `some` of two options (the effect of sending on a
buffered channel that is consumed once, and of overwriting a
pointer). -/
def keepFirst {a : Type} (x y : Option a) : Option a :=
  match x with
  | some e => some e
  | none => y

@[simp] theorem keepFirst_none {a : Type} (y : Option a) : keepFirst none y = y := rfl

@[simp] theorem keepFirst_some {a : Type} (e : a) (y : Option a) :
    keepFirst (some e) y = some e := rfl

@[simp] theorem keepFirst_none_right {a : Type} (x : Option a) : keepFirst x none = x := by
  cases x <;> rfl

theorem dnsStep_preserves (st : ScanState) (d : List Char) :
    (dnsStep st d).err = st.err ∧ (dnsStep st d).notAfter = st.notAfter := by
  unfold dnsStep
  dsimp only
  split_ifs <;> exact ⟨rfl, rfl⟩

theorem addDNS_preserves (toks : List (List Char)) : ∀ st : ScanState,
    (addDNS st toks).err = st.err ∧ (addDNS st toks).notAfter = st.notAfter := by
  induction toks with
  | nil => exact fun _ => ⟨rfl, rfl⟩
  | cons d rest ih =>
    intro st
    rcases ih (dnsStep st d) with ⟨h1, h2⟩
    rcases dnsStep_preserves st d with ⟨h3, h4⟩
    exact ⟨h1.trans h3, h2.trans h4⟩

theorem cnStep_preserves (st : ScanState) (l : String) :
    (cnStep st l).err = st.err ∧ (cnStep st l).notAfter = st.notAfter := by
  unfold cnStep
  split_ifs <;> exact ⟨rfl, rfl⟩

theorem sanStep_preserves (st : ScanState) (prev l : String) :
    (sanStep st prev l).err = st.err ∧ (sanStep st prev l).notAfter = st.notAfter := by
  unfold sanStep
  split_ifs with h
  · exact addDNS_preserves _ st
  · exact ⟨rfl, rfl⟩

theorem naStep_char (st : ScanState) (l : String) :
    (naStep st l).err = keepFirst st.err (if badNA l then some l else none) ∧
    (naStep st l).notAfter
      = (if isNALine l then
           some ((parseCertTime (l.data.drop 12)).getD zeroGoTime)
         else st.notAfter) := by
  by_cases hp : ("Not After : ".data).isPrefixOf l.data = true
  · cases hpt : parseCertTime (l.data.drop 12) with
    | some na => cases he : st.err <;>
        simp [naStep, badNA, isNALine, hp, hpt, he, keepFirst]
    | none => cases he : st.err <;>
        simp [naStep, badNA, isNALine, hp, hpt, he, keepFirst]
  · cases he : st.err <;>
      simp [naStep, badNA, isNALine, hp, he, keepFirst]

theorem processLine_char (st : ScanState) (prev l : String) :
    (processLine st prev l).err = keepFirst st.err (if badNA l then some l else none) ∧
    (processLine st prev l).notAfter
      = (if isNALine l then
           some ((parseCertTime (l.data.drop 12)).getD zeroGoTime)
         else (cnStep st l).notAfter) := by
  unfold processLine
  rcases sanStep_preserves (naStep (cnStep st l) l) prev l with ⟨h1, h2⟩
  rcases naStep_char (cnStep st l) l with ⟨h3, h4⟩
  rcases cnStep_preserves st l with ⟨h5, h6⟩
  rw [h1, h2, h3, h4, h5]
  exact ⟨rfl, rfl⟩

theorem scanLinesAux_char (lines : List String) : ∀ (prev : String) (st : ScanState),
    (scanLinesAux lines prev st).err = keepFirst st.err (firstBadNA lines) ∧
    (scanLinesAux lines prev st).notAfter = keepFirst (lastNAValue lines) st.notAfter := by
  induction lines with
  | nil =>
    intro prev st
    exact ⟨by simp [scanLinesAux, firstBadNA], by simp [scanLinesAux, lastNAValue]⟩
  | cons line rest ih =>
    intro prev st
    have hstep : scanLinesAux (line :: rest) prev st
        = scanLinesAux rest (goTrim line) (processLine st prev (goTrim line)) := rfl
    rcases ih (goTrim line) (processLine st prev (goTrim line)) with ⟨h1, h2⟩
    rcases processLine_char st prev (goTrim line) with ⟨h3, h4⟩
    rw [hstep]
    constructor
    · rw [h1, h3]
      by_cases hb : badNA (goTrim line) = true
      · cases he : st.err <;> simp [firstBadNA, hb, he, keepFirst]
      · cases he : st.err <;> simp [firstBadNA, hb, he, keepFirst]
    · rw [h2, h4]
      rcases cnStep_preserves st (goTrim line) with ⟨-, h6⟩
      rw [h6]
      by_cases hna : isNALine (goTrim line) = true
      · cases hl : lastNAValue rest <;> simp [lastNAValue, hl, hna, keepFirst]
      · cases hl : lastNAValue rest <;> simp [lastNAValue, hl, hna, keepFirst]

theorem dedupAgainst_sub (ns : List String) : ∀ (seen : List String) (n : String),
    n ∈ dedupAgainst seen ns → n ∉ seen := by
  induction ns with
  | nil => intro seen n h; simp [dedupAgainst] at h
  | cons m rest ih =>
    intro seen n h
    unfold dedupAgainst at h
    by_cases hc : seen.contains m = true
    · rw [if_pos hc] at h
      exact ih seen n h
    · rw [if_neg hc] at h
      rcases List.mem_cons.mp h with h | h
      · subst h
        simpa using hc
      · intro hmem
        exact ih (seen ++ [m]) n h (by simp [hmem])

theorem dedupAgainst_nodup (ns : List String) : ∀ seen : List String,
    (dedupAgainst seen ns).Nodup := by
  induction ns with
  | nil => intro seen; simp [dedupAgainst]
  | cons m rest ih =>
    intro seen
    unfold dedupAgainst
    by_cases hc : seen.contains m = true
    · rw [if_pos hc]
      exact ih seen
    · rw [if_neg hc]
      refine List.nodup_cons.mpr ⟨?_, ih (seen ++ [m])⟩
      intro hmem
      exact dedupAgainst_sub rest (seen ++ [m]) m hmem (by simp)

theorem dnsTokNames_cons (d : List Char) (rest : List (List Char)) :
    dnsTokNames (d :: rest)
      = (if ("DNS:".data).isPrefixOf (trimChars d)
         then (⟨(trimChars d).drop 4⟩ : String) :: dnsTokNames rest
         else dnsTokNames rest) := by
  unfold dnsTokNames
  simp only [List.filterMap_cons]
  by_cases hp : ("DNS:".data).isPrefixOf (trimChars d) = true
  · rw [if_pos hp, if_pos hp]
  · rw [if_neg hp, if_neg hp]

theorem dedupAgainst_cons (seen : List String) (n : String) (ns : List String) :
    dedupAgainst seen (n :: ns)
      = (if seen.contains n then dedupAgainst seen ns
         else n :: dedupAgainst (seen ++ [n]) ns) := rfl

theorem addDNS_char (toks : List (List Char)) : ∀ st : ScanState,
    (addDNS st toks).subjects = st.subjects ++ dedupAgainst st.seen (dnsTokNames toks) ∧
    (addDNS st toks).seen = st.seen ++ dedupAgainst st.seen (dnsTokNames toks) := by
  induction toks with
  | nil => intro st; simp [addDNS, dnsTokNames, dedupAgainst]
  | cons d rest ih =>
    intro st
    have hstep : addDNS st (d :: rest) = addDNS (dnsStep st d) rest := rfl
    rw [hstep]
    rcases ih (dnsStep st d) with ⟨h1, h2⟩
    rw [h1, h2]
    by_cases hp : ("DNS:".data).isPrefixOf (trimChars d) = true
    · by_cases hc : st.seen.contains (⟨(trimChars d).drop 4⟩ : String) = true
      · have hd : dnsStep st d = st := by
          unfold dnsStep
          dsimp only
          rw [if_pos hp, if_pos hc]
        rw [hd, dnsTokNames_cons, if_pos hp, dedupAgainst_cons, if_pos hc]
        exact ⟨rfl, rfl⟩
      · have hd : dnsStep st d
            = { st with subjects := st.subjects ++ [⟨(trimChars d).drop 4⟩],
                        seen := st.seen ++ [⟨(trimChars d).drop 4⟩] } := by
          unfold dnsStep
          dsimp only
          rw [if_pos hp, if_neg hc]
        rw [hd, dnsTokNames_cons, if_pos hp, dedupAgainst_cons, if_neg hc]
        constructor
        · show st.subjects ++ [(⟨(trimChars d).drop 4⟩ : String)]
              ++ dedupAgainst (st.seen ++ [⟨(trimChars d).drop 4⟩]) (dnsTokNames rest) = _
          rw [List.append_assoc]
          rfl
        · show st.seen ++ [(⟨(trimChars d).drop 4⟩ : String)]
              ++ dedupAgainst (st.seen ++ [⟨(trimChars d).drop 4⟩]) (dnsTokNames rest) = _
          rw [List.append_assoc]
          rfl
    · have hd : dnsStep st d = st := by
        unfold dnsStep
        dsimp only
        rw [if_neg hp]
      rw [hd, dnsTokNames_cons, if_neg hp]
      exact ⟨rfl, rfl⟩

theorem firstBadNA_none_iff (lines : List String) :
    firstBadNA lines = none ↔ ∀ line ∈ lines, badNA (goTrim line) = false := by
  induction lines with
  | nil => simp [firstBadNA]
  | cons line rest ih =>
    by_cases hb : badNA (goTrim line) = true
    · simp [firstBadNA, hb]
    · simp only [Bool.not_eq_true] at hb
      simp [firstBadNA, hb, ih]

theorem lastNAValue_eq_map (lines : List String) :
    lastNAValue lines
      = (lastNALine lines).map (fun l => (parseCertTime (l.data.drop 12)).getD zeroGoTime) := by
  induction lines with
  | nil => rfl
  | cons line rest ih =>
    unfold lastNAValue lastNALine
    rw [ih]
    cases hl : lastNALine rest with
    | some v => rfl
    | none =>
      by_cases hna : isNALine (goTrim line) = true
      · simp [hna]
      · simp [hna]

theorem lastNALine_isNA (lines : List String) : ∀ l, lastNALine lines = some l →
    isNALine l = true ∧ ∃ line ∈ lines, goTrim line = l := by
  induction lines with
  | nil => intro l h; simp [lastNALine] at h
  | cons line rest ih =>
    intro l h
    unfold lastNALine at h
    cases hl : lastNALine rest with
    | some v =>
      rw [hl] at h
      injection h with hh
      subst hh
      rcases ih _ hl with ⟨h1, line', hmem, h2⟩
      exact ⟨h1, line', List.mem_cons_of_mem _ hmem, h2⟩
    | none =>
      rw [hl] at h
      by_cases hna : isNALine (goTrim line) = true
      · rw [if_pos hna] at h
        cases h
        exact ⟨hna, line, List.mem_cons_self _ _, rfl⟩
      · rw [if_neg hna] at h
        exact Option.noConfusion h

theorem lastNALine_none (lines : List String)
    (h : ∀ line ∈ lines, isNALine (goTrim line) = false) : lastNALine lines = none := by
  induction lines with
  | nil => rfl
  | cons line rest ih =>
    unfold lastNALine
    rw [ih (fun l hl => h l (List.mem_cons_of_mem _ hl))]
    rw [h line (List.mem_cons_self _ _)]
    rfl

/-! ## The claims -/

theorem tdiv86400_of_neg (x : Int) (hx : x < 0) :
    Int.tdiv x 86400 = -((-x) / 86400) := by
  have h2 : Int.tdiv (-(-x)) 86400 = -(Int.tdiv (-x) 86400) := Int.neg_tdiv (-x) 86400
  rw [neg_neg] at h2
  rw [h2, Int.tdiv_eq_ediv (by omega) (by omega)]

/-- **C1** (amended): `daysRemain` is the time between `notAfter` and
`now` divided by 24 hours and truncated toward zero, so a certificate
expiring in 23.9 hours (86040 seconds) reports 0 days remaining; an
already-expired certificate reports a *nonpositive* integer, which is
strictly negative exactly when the certificate expired at least 24
hours before `now` (not unconditionally negative, as the original
claim stated). -/
theorem daysRemain_truncation (na now : Int) (h : na < now) :
    daysRemainOf na now ≤ 0 ∧
    (daysRemainOf na now < 0 ↔ na + 86400 ≤ now) ∧
    daysRemainOf (now + 86040) now = 0 := by
  unfold daysRemainOf
  have hx : na - now < 0 := by omega
  rw [tdiv86400_of_neg _ hx]
  refine ⟨by omega, by omega, ?_⟩
  have h2 : now + 86040 - now = (86040 : Int) := by ring
  rw [h2]
  decide

/-- Witness for `daysRemain_truncation` at `na = 0`, `now = 3600`. -/
theorem daysRemain_truncation_witness :
    (0 : Int) < 3600 ∧
    (daysRemainOf 0 3600 ≤ 0 ∧
     (daysRemainOf 0 3600 < 0 ↔ (0 : Int) + 86400 ≤ 3600) ∧
     daysRemainOf (3600 + 86040) 3600 = 0) :=
  ⟨by decide, daysRemain_truncation 0 3600 (by decide)⟩

/-- **C1** counterexample: a certificate that expired one hour before
`now` (`notAfter = 0`, `now = 3600` epoch seconds) is already expired
but reports `daysRemain = 0`, not a negative integer — truncation
toward zero sends `(-3600 s)/86400 s` to `0`. -/
theorem daysRemain_expired_not_negative :
    (0 : Int) < 3600 ∧ daysRemainOf 0 3600 = 0 ∧ ¬daysRemainOf 0 3600 < 0 := by
  decide

/-- **C8** (confirmed): when both `--rsa` and `--ecdsa` are set, the
probe builder rejects the configuration with the configuration error
before the pipeline stage list even exists, so no stage is started —
the result of `checkCertNet` is the CRITICAL verdict carrying the
error text and is independent of the pipeline oracle. -/
theorem conflictingCipherFlags (opts : CmdOpts)
    (r r2 : List (List String) → Except String CertInfo) (now now2 : Int)
    (hr : opts.rsa = true) (he : opts.ecdsa = true) :
    buildProbeCmds opts = .error "cannot use --rsa and --ecdsa at the same time" ∧
    checkCertNetFull opts r now
      = (.CRITICAL, "cannot use --rsa and --ecdsa at the same time") ∧
    checkCertNetFull opts r now = checkCertNetFull opts r2 now2 := by
  have hb : buildProbeCmds opts = .error "cannot use --rsa and --ecdsa at the same time" := by
    unfold buildProbeCmds
    rw [hr, he]
    rfl
  refine ⟨hb, ?_, ?_⟩
  · unfold checkCertNetFull
    rw [hb]
  · unfold checkCertNetFull
    rw [hb]

/-- Witness for `conflictingCipherFlags` on a concrete
configuration. -/
theorem conflictingCipherFlags_witness :
    buildProbeCmds ⟨"localhost", "443", "", false, true, true, 14, 30⟩
      = .error "cannot use --rsa and --ecdsa at the same time" ∧
    checkCertNetFull ⟨"localhost", "443", "", false, true, true, 14, 30⟩
        (fun _ => .error "x") 0
      = (.CRITICAL, "cannot use --rsa and --ecdsa at the same time") ∧
    checkCertNetFull ⟨"localhost", "443", "", false, true, true, 14, 30⟩
        (fun _ => .error "x") 0
      = checkCertNetFull ⟨"localhost", "443", "", false, true, true, 14, 30⟩
          (fun _ => .error "y") 1 :=
  conflictingCipherFlags _ _ _ 0 1 rfl rfl

theorem string_append_eq_empty_iff (a b : String) : a ++ b = "" ↔ a = "" ∧ b = "" := by
  constructor
  · intro h
    have hd : a.data ++ b.data = ([] : List Char) := by
      rw [← String.data_append, h]
    rcases List.append_eq_nil.mp hd with ⟨h1, h2⟩
    exact ⟨String.ext_iff.mpr h1, String.ext_iff.mpr h2⟩
  · rintro ⟨h1, h2⟩
    rw [h1, h2]
    rfl

/-- **C9** (amended): in a three-stage pipeline where every stage
starts, the first two waits succeed and the final wait fails, the
runner returns the failing stage's error, and the error sink holds
exactly the concatenated standard-error output of the three stages —
so it is non-empty iff at least one stage wrote a non-empty
diagnostic (the runner itself contributes nothing; the original
claim's unconditional non-emptiness fails for silently-failing
stages). -/
theorem pipelineLastStageFails (b0 b1 b2 : StageBehavior) (e : String)
    (h0s : b0.startErr = none) (h1s : b1.startErr = none) (h2s : b2.startErr = none)
    (h0w : b0.waitErr = none) (h1w : b1.waitErr = none) (h2w : b2.waitErr = some e) :
    execpipeCommand [b0, b1, b2]
      = (.error e, b0.stderrOut ++ b1.stderrOut ++ b2.stderrOut) ∧
    (b0.stderrOut ++ b1.stderrOut ++ b2.stderrOut ≠ ""
      ↔ ¬(b0.stderrOut = "" ∧ b1.stderrOut = "" ∧ b2.stderrOut = "")) := by
  constructor
  · have hstart : startPhase [b0, b1, b2] = none := by
      simp [startPhase, h0s, h1s, h2s]
    have hwait : firstWaitErr [b0, b1, b2] = some e := by
      simp [firstWaitErr, h0w, h1w, h2w]
    have hjoin : String.join [b0.stderrOut, b1.stderrOut, b2.stderrOut]
        = b0.stderrOut ++ b1.stderrOut ++ b2.stderrOut := by
      show "" ++ b0.stderrOut ++ b1.stderrOut ++ b2.stderrOut = _
      simp
    simp only [execpipeCommand, hstart, hwait, List.map_cons, List.map_nil]
    rw [hjoin]
  · rw [ne_eq, string_append_eq_empty_iff, string_append_eq_empty_iff]
    tauto

/-- Witness for `pipelineLastStageFails`: the repository's own test
scenario `echo QUIT | ... | rmdir tmptmptmp`, where the failing final
stage writes a diagnostic. -/
theorem pipelineLastStageFails_witness :
    execpipeCommand
        [⟨none, none, ""⟩, ⟨none, none, ""⟩,
         ⟨none, some "exit status 1", "rmdir: failed to remove tmptmptmp"⟩]
      = (.error "exit status 1", "" ++ "" ++ "rmdir: failed to remove tmptmptmp") ∧
    ("" ++ "" ++ "rmdir: failed to remove tmptmptmp" ≠ ""
      ↔ ¬("" = "" ∧ "" = "" ∧ "rmdir: failed to remove tmptmptmp" = "")) :=
  pipelineLastStageFails _ _ _ _ rfl rfl rfl rfl rfl rfl

/-- **C9** counterexample: with all three stages silent on standard
error (as in the repository's first test, where `grep` exits non-zero
without writing anything), the accumulated error-sink text after the
failing run is empty — refuting the claim that it is always
non-empty. -/
theorem pipelineFailureEmptySink :
    execpipeCommand [⟨none, none, ""⟩, ⟨none, none, ""⟩, ⟨none, some "exit status 1", ""⟩]
      = (.error "exit status 1", "") ∧ ¬("" : String) ≠ "" :=
  ⟨rfl, fun h => h rfl⟩

/-- **C2** (confirmed): with server-name verification absent or
passing, the verdict is CRITICAL exactly when
`daysRemain < crit`, else WARNING exactly when `daysRemain < warn`,
else OK (both comparisons strict, so `daysRemain = warn` with
`crit ≤ warn` yields OK), and in all three cases the message is
`"Expiration date: <YYYY-MM-DD>, <daysRemain> days remaining"`
formatted from `notAfter`. -/
theorem expiryThresholdVerdict (opts : CmdOpts) (cert : CertInfo) (now : Int)
    (hv : opts.verifyServerName = false ∨ verifiedHostname cert.subjects opts.serverName = true)
    (hcw : opts.crit ≤ opts.warn) :
    ((checkCertNetEval opts cert now).1 = .CRITICAL
        ↔ daysRemainOf (toEpochSec cert.notAfter) now < opts.crit) ∧
    ((checkCertNetEval opts cert now).1 = .WARNING
        ↔ opts.crit ≤ daysRemainOf (toEpochSec cert.notAfter) now
          ∧ daysRemainOf (toEpochSec cert.notAfter) now < opts.warn) ∧
    ((checkCertNetEval opts cert now).1 = .OK
        ↔ opts.crit ≤ daysRemainOf (toEpochSec cert.notAfter) now
          ∧ opts.warn ≤ daysRemainOf (toEpochSec cert.notAfter) now) ∧
    (daysRemainOf (toEpochSec cert.notAfter) now = opts.warn
        → (checkCertNetEval opts cert now).1 = .OK) ∧
    (checkCertNetEval opts cert now).2
      = "Expiration date: " ++ formatDate cert.notAfter ++ ", "
        ++ toString (daysRemainOf (toEpochSec cert.notAfter) now) ++ " days remaining" := by
  have hb : (opts.verifyServerName && !verifiedHostname cert.subjects opts.serverName)
      = false := by
    rcases hv with h | h <;> simp [h]
  unfold checkCertNetEval
  rw [hb]
  simp only [Bool.false_eq_true, if_false]
  set d := daysRemainOf (toEpochSec cert.notAfter) now with hd
  split_ifs with h1 h2
  · exact ⟨iff_of_true rfl h1,
      iff_of_false (by decide) (by omega),
      iff_of_false (by decide) (by omega),
      fun h => absurd h1 (by omega),
      rfl⟩
  · exact ⟨iff_of_false (by decide) (by omega),
      iff_of_true rfl ⟨by omega, h2⟩,
      iff_of_false (by decide) (by omega),
      fun h => absurd h2 (by omega),
      rfl⟩
  · exact ⟨iff_of_false (by decide) (by omega),
      iff_of_false (by decide) (by omega),
      iff_of_true rfl ⟨by omega, by omega⟩,
      fun _ => rfl,
      rfl⟩

/-- Witness for `expiryThresholdVerdict` with thresholds `crit = 7`,
`warn = 10`, no verification. -/
theorem expiryThresholdVerdict_witness :
    ((checkCertNetEval ⟨"h", "443", "", false, false, false, 7, 10⟩
          ⟨⟨2030, 6, 1, 0, 0, 0⟩, []⟩ 0).1 = .CRITICAL
        ↔ daysRemainOf (toEpochSec ⟨2030, 6, 1, 0, 0, 0⟩) 0 < 7) ∧
    ((checkCertNetEval ⟨"h", "443", "", false, false, false, 7, 10⟩
          ⟨⟨2030, 6, 1, 0, 0, 0⟩, []⟩ 0).1 = .WARNING
        ↔ 7 ≤ daysRemainOf (toEpochSec ⟨2030, 6, 1, 0, 0, 0⟩) 0
          ∧ daysRemainOf (toEpochSec ⟨2030, 6, 1, 0, 0, 0⟩) 0 < 10) ∧
    ((checkCertNetEval ⟨"h", "443", "", false, false, false, 7, 10⟩
          ⟨⟨2030, 6, 1, 0, 0, 0⟩, []⟩ 0).1 = .OK
        ↔ 7 ≤ daysRemainOf (toEpochSec ⟨2030, 6, 1, 0, 0, 0⟩) 0
          ∧ 10 ≤ daysRemainOf (toEpochSec ⟨2030, 6, 1, 0, 0, 0⟩) 0) ∧
    (daysRemainOf (toEpochSec ⟨2030, 6, 1, 0, 0, 0⟩) 0 = 10
        → (checkCertNetEval ⟨"h", "443", "", false, false, false, 7, 10⟩
            ⟨⟨2030, 6, 1, 0, 0, 0⟩, []⟩ 0).1 = .OK) ∧
    (checkCertNetEval ⟨"h", "443", "", false, false, false, 7, 10⟩
        ⟨⟨2030, 6, 1, 0, 0, 0⟩, []⟩ 0).2
      = "Expiration date: " ++ formatDate ⟨2030, 6, 1, 0, 0, 0⟩ ++ ", "
        ++ toString (daysRemainOf (toEpochSec ⟨2030, 6, 1, 0, 0, 0⟩) 0)
        ++ " days remaining" :=
  expiryThresholdVerdict ⟨"h", "443", "", false, false, false, 7, 10⟩
    ⟨⟨2030, 6, 1, 0, 0, 0⟩, []⟩ 0 (Or.inl rfl) (by decide)

/-- **C3** (confirmed): a subject entry beginning with `*.` matches
exactly when the server name with its leftmost dot-separated label
dropped equals the subject with its leftmost label dropped, and any
other entry matches only on exact equality; in particular
`*.example.com` matches `www.example.com` and does not match
`example.com`. -/
theorem wildcardSubjectMatch (d sn : String) :
    (matchSubject d sn = true ↔
      ((("*.".data).isPrefixOf d.data = true) ∧
        joinWithChar '.' ((splitOnChar '.' sn.data).drop 1)
          = joinWithChar '.' ((splitOnChar '.' d.data).drop 1)) ∨
      ((("*.".data).isPrefixOf d.data = false) ∧ d = sn)) ∧
    matchSubject "*.example.com" "www.example.com" = true ∧
    matchSubject "*.example.com" "example.com" = false := by
  refine ⟨?_, by decide, by decide⟩
  unfold matchSubject
  by_cases hp : ("*.".data).isPrefixOf d.data = true
  · rw [if_pos hp]
    simp [hp, eq_comm]
  · rw [if_neg hp]
    simp only [Bool.not_eq_true] at hp
    simp [hp]

/-- **C4** (confirmed): with verification requested and no subject
matching the configured server name, the evaluator returns CRITICAL
with a message naming the server name and the comma-joined subject
list, and the verdict does not depend on the thresholds or on the
current time (verification failure short-circuits the expiry-based
verdict). -/
theorem verificationFailureShortCircuits (opts : CmdOpts) (cert : CertInfo)
    (now now2 c2 w2 : Int)
    (hv : opts.verifyServerName = true)
    (hm : ∀ d ∈ cert.subjects, matchSubject d opts.serverName = false) :
    checkCertNetEval opts cert now
      = (.CRITICAL, "servername:" ++ opts.serverName ++ " is not included in "
          ++ joinComma cert.subjects) ∧
    checkCertNetEval { opts with crit := c2, warn := w2 } cert now2
      = checkCertNetEval opts cert now := by
  have hvh : verifiedHostname cert.subjects opts.serverName = false := by
    unfold verifiedHostname
    rw [List.any_eq_false]
    intro d hd
    simp [hm d hd]
  constructor
  · unfold checkCertNetEval
    rw [hv, hvh]
    rfl
  · simp [checkCertNetEval, hv, hvh]

/-- Witness for `verificationFailureShortCircuits`: subject list
`["foo.com"]` does not contain server name `bar.com`. -/
theorem verificationFailureShortCircuits_witness :
    checkCertNetEval ⟨"h", "443", "bar.com", true, false, false, 14, 30⟩
        ⟨⟨2030, 6, 1, 0, 0, 0⟩, ["foo.com"]⟩ 0
      = (.CRITICAL, "servername:" ++ "bar.com" ++ " is not included in "
          ++ joinComma ["foo.com"]) ∧
    checkCertNetEval ⟨"h", "443", "bar.com", true, false, false, 99, 99⟩
        ⟨⟨2030, 6, 1, 0, 0, 0⟩, ["foo.com"]⟩ 5
      = checkCertNetEval ⟨"h", "443", "bar.com", true, false, false, 14, 30⟩
          ⟨⟨2030, 6, 1, 0, 0, 0⟩, ["foo.com"]⟩ 0 :=
  verificationFailureShortCircuits
    ⟨"h", "443", "bar.com", true, false, false, 14, 30⟩
    ⟨⟨2030, 6, 1, 0, 0, 0⟩, ["foo.com"]⟩ 0 5 99 99 rfl (by decide)

/-- **C5** (confirmed): the basic-mode parse succeeds exactly when
the escaped text has exactly one `notAfter=(.+)$` match whose capture
parses in the fixed layout; whenever the match count is not one the
error embeds the full escaped text; and on a text with the single
well-formed line `notAfter=Jun 1 00:00:00 2030 GMT` the result is
2030-06-01T00:00:00Z. -/
theorem basicModeParse (s : String) :
    ((∃ t, getNotAfterOfBuffer s = .ok t)
        ↔ (∃ cap, notAfterMatches (bufString s).data = [cap]
            ∧ (parseCertTime cap).isSome = true)) ∧
    ((notAfterMatches (bufString s).data).length = 1
        ∨ getNotAfterOfBuffer s = .error (.noMatch (bufString s))) ∧
    getNotAfterOfBuffer "notBefore=May 1 00:00:00 2020 GMT\nnotAfter=Jun 1 00:00:00 2030 GMT"
      = .ok ⟨2030, 6, 1, 0, 0, 0⟩ := by
  refine ⟨?_, ?_, rfl⟩
  · unfold getNotAfterOfBuffer
    cases hm : notAfterMatches (bufString s).data with
    | nil => simp [hm]
    | cons cap tail =>
      cases tail with
      | nil =>
        cases hp : parseCertTime cap with
        | none => simp [hm, hp]
        | some t => simp [hm, hp]
      | cons c t2 => simp [hm]
  · cases hm : notAfterMatches (bufString s).data with
    | nil =>
      right
      simp only [getNotAfterOfBuffer, hm]
    | cons cap tail =>
      cases tail with
      | nil => left; rfl
      | cons c t2 =>
        right
        simp only [getNotAfterOfBuffer, hm]

/-- **C6** counterexample: a trimmed line exactly *equal* to
`Subject Alternative Name:` does not arm the SAN lookback, because
the code requires `strings.Index(prev, "Subject Alternative Name:")`
to be strictly positive and here it is `0`; the following `DNS:`
line is ignored and the subject list stays empty instead of
containing `foo.example.com`. -/
theorem sanEqualMarkerIgnored :
    getCertInfoParse
      ["Subject Alternative Name:", "DNS:foo.example.com",
       "Not After : Jun  1 00:00:00 2030 GMT"]
      = .ok ⟨⟨2030, 6, 1, 0, 0, 0⟩, []⟩ ∧
    containsAfterStart ("Subject Alternative Name:".data)
      (goTrim "Subject Alternative Name:").data = false :=
  ⟨rfl, by decide⟩

/-- **C6** (amended): the SAN lookback arms when the *previous*
trimmed line contains `Subject Alternative Name:` at a strictly
positive index (as in `X509v3 Subject Alternative Name:`), not when
it merely equals the marker; a following line beginning with `DNS:`
is then split on commas, each token trimmed and stripped of its
`DNS:` prefix, and each resulting name is appended to the subject
list exactly once — names already in the seen-set are silently
dropped. -/
theorem sanExtraction (st : ScanState) (prev l : String)
    (hprev : containsAfterStart ("Subject Alternative Name:".data) prev.data = true)
    (hdns : ("DNS:".data).isPrefixOf l.data = true) :
    (sanStep st prev l).subjects = st.subjects ++ dedupAgainst st.seen (dnsNames l) ∧
    (sanStep st prev l).seen = st.seen ++ dedupAgainst st.seen (dnsNames l) ∧
    (dedupAgainst st.seen (dnsNames l)).Nodup ∧
    (∀ n ∈ dedupAgainst st.seen (dnsNames l), n ∉ st.seen) := by
  have hs : sanStep st prev l = addDNS st (splitOnChar ',' l.data) := by
    unfold sanStep
    rw [hprev, hdns]
    rfl
  rcases addDNS_char (splitOnChar ',' l.data) st with ⟨h1, h2⟩
  unfold dnsNames
  rw [hs]
  exact ⟨h1, h2, dedupAgainst_nodup _ _, fun n hn => dedupAgainst_sub _ _ n hn⟩

/-- Witness for `sanExtraction`: the `openssl` marker line and a
`DNS:` line with a duplicated name. -/
theorem sanExtraction_witness :
    (sanStep initScanState "X509v3 Subject Alternative Name:"
        "DNS:a.com, DNS:b.com, DNS:a.com").subjects
      = initScanState.subjects
        ++ dedupAgainst initScanState.seen (dnsNames "DNS:a.com, DNS:b.com, DNS:a.com") ∧
    (sanStep initScanState "X509v3 Subject Alternative Name:"
        "DNS:a.com, DNS:b.com, DNS:a.com").seen
      = initScanState.seen
        ++ dedupAgainst initScanState.seen (dnsNames "DNS:a.com, DNS:b.com, DNS:a.com") ∧
    (dedupAgainst initScanState.seen (dnsNames "DNS:a.com, DNS:b.com, DNS:a.com")).Nodup ∧
    (∀ n ∈ dedupAgainst initScanState.seen (dnsNames "DNS:a.com, DNS:b.com, DNS:a.com"),
      n ∉ initScanState.seen) :=
  sanExtraction initScanState "X509v3 Subject Alternative Name:"
    "DNS:a.com, DNS:b.com, DNS:a.com" (by decide) (by decide)

theorem firstBadNA_some (lines : List String) : ∀ l, firstBadNA lines = some l →
    badNA l = true := by
  induction lines with
  | nil => intro l h; exact Option.noConfusion h
  | cons line rest ih =>
    intro l h
    unfold firstBadNA at h
    by_cases hb : badNA (goTrim line) = true
    · rw [if_pos hb] at h
      injection h with hh
      rw [← hh]
      exact hb
    · rw [if_neg hb] at h
      exact ih l h

/-- **C7** (confirmed): an input with no `Not After : ` line fails
with the `could not find notAfter in result` error, and an input
containing a malformed `Not After : ` line fails with the error
carrying the (first) offending line — no `CertificateInfo` is
produced in either case. -/
theorem extendedModeFailures (lines : List String) :
    ((∀ line ∈ lines, isNALine (goTrim line) = false)
        → getCertInfoParse lines = .error .missingNotAfter) ∧
    (∀ l, firstBadNA lines = some l
        → getCertInfoParse lines = .error (.badNotAfter l)
          ∧ isNALine l = true ∧ (parseCertTime (l.data.drop 12)).isNone = true) := by
  constructor
  · intro h
    have hbad : firstBadNA lines = none := by
      rw [firstBadNA_none_iff]
      intro line hl
      unfold badNA
      rw [h line hl]
      rfl
    have hlast : lastNAValue lines = none := by
      rw [lastNAValue_eq_map, lastNALine_none lines h]
      rfl
    simp only [getCertInfoParse, scanCertLines]
    rcases scanLinesAux_char lines "" initScanState with ⟨h1, h2⟩
    rw [h1, h2, hbad, hlast]
    rfl
  · intro l hl
    have hb : badNA l = true := firstBadNA_some lines l hl
    have hna : isNALine l = true := by
      unfold badNA at hb
      exact (Bool.and_eq_true _ _ |>.mp hb).1
    have hnone : (parseCertTime (l.data.drop 12)).isNone = true := by
      unfold badNA at hb
      exact (Bool.and_eq_true _ _ |>.mp hb).2
    refine ⟨?_, hna, hnone⟩
    simp only [getCertInfoParse, scanCertLines]
    rcases scanLinesAux_char lines "" initScanState with ⟨h1, -⟩
    rw [h1, hl]
    rfl

/-- **C10** (confirmed): multiple well-formed `Not After : ` lines in
one input are not an error — each successive parse overwrites the
previous value, the parse succeeds, and the returned `notAfter` is
the timestamp of the last such line. -/
theorem lastNotAfterWins (lines : List String) (l : String)
    (hgood : firstBadNA lines = none)
    (hlast : lastNALine lines = some l) :
    ∃ t, parseCertTime (l.data.drop 12) = some t
      ∧ getCertInfoParse lines = .ok ⟨t, (scanCertLines lines).subjects⟩ := by
  rcases lastNALine_isNA lines l hlast with ⟨hna, line, hmem, hline⟩
  have hbadl : badNA l = false := by
    have h := (firstBadNA_none_iff lines).mp hgood line hmem
    rw [hline] at h
    exact h
  cases hp : parseCertTime (l.data.drop 12) with
  | none =>
    exfalso
    unfold badNA at hbadl
    rw [hna, hp] at hbadl
    simp at hbadl
  | some t =>
    refine ⟨t, rfl, ?_⟩
    have hval : lastNAValue lines = some t := by
      rw [lastNAValue_eq_map, hlast]
      simp [hp]
    simp only [getCertInfoParse, scanCertLines]
    rcases scanLinesAux_char lines "" initScanState with ⟨h1, h2⟩
    rw [h1, h2, hgood, hval]
    rfl

/-- Witness for `lastNotAfterWins`: two well-formed `Not After : `
lines; the second one wins. -/
theorem lastNotAfterWins_witness :
    ∃ t, parseCertTime (("Not After : Dec 25 01:02:03 2031 GMT").data.drop 12) = some t
      ∧ getCertInfoParse
          ["Not After : Jun  1 00:00:00 2030 GMT", "Not After : Dec 25 01:02:03 2031 GMT"]
        = .ok ⟨t, (scanCertLines
            ["Not After : Jun  1 00:00:00 2030 GMT",
             "Not After : Dec 25 01:02:03 2031 GMT"]).subjects⟩ :=
  lastNotAfterWins
    ["Not After : Jun  1 00:00:00 2030 GMT", "Not After : Dec 25 01:02:03 2031 GMT"]
    "Not After : Dec 25 01:02:03 2031 GMT" (by decide) (by decide)

/-- Witness for `extendedModeFailures` at a concrete input with no
`Not After : ` line. -/
theorem extendedModeFailures_witness :
    ((∀ line ∈ (["no dates here"] : List String), isNALine (goTrim line) = false)
        → getCertInfoParse ["no dates here"] = .error .missingNotAfter) ∧
    (∀ l, firstBadNA ["no dates here"] = some l
        → getCertInfoParse ["no dates here"] = .error (.badNotAfter l)
          ∧ isNALine l = true ∧ (parseCertTime (l.data.drop 12)).isNone = true) :=
  extendedModeFailures ["no dates here"]
